import Mathlib

/-!
Verification development for the llm-coq retry/feedback driver
(src/llm-coq.py).  The Python source is embedded shallowly: strings are
`List Char`, the fixed regular expressions are implemented as deterministic
matchers (each pattern in the source admits no genuine backtracking, see the
comments at each matcher), the filesystem is a two-field record (the target
source file and the fixed-name error log), and the two external
collaborators (the ollama model backend and the coqc checker subprocess)
are oracles supplied per round.  An uncaught Python exception (the KeyError
raised by `construct_error_message` on an unparsable diagnostic) is
modelled as `none`.
-/

namespace LlmCoq

/-- Source line 8: `MAX_NUM_ATTEMPTS = 2`. -/
def MAX_NUM_ATTEMPTS : Nat := 2

/-- A single newline, as a one-character string fragment. -/
def nlc : List Char := ['\n']

/-- A triple-backtick fence marker. -/
def ticks : List Char := "\x60\x60\x60".data

/-- Consume an expected literal from the front of a string:
`dropLit p l = some r` iff `l = p ++ r`. -/
def dropLit : List Char → List Char → Option (List Char)
  | [], l => some l
  | _ :: _, [] => none
  | p :: ps, c :: cs => if c = p then dropLit ps cs else none

/-- Python `str.strip()` whitespace (the six ASCII whitespace characters;
the source never feeds non-ASCII whitespace to `strip`). -/
def pyIsSpace (c : Char) : Bool :=
  c = ' ' || c = '\t' || c = '\n' || c = '\r' || c = Char.ofNat 11 || c = Char.ofNat 12

/-- Python `str.strip()`: trim whitespace from both ends. -/
def pyStrip (l : List Char) : List Char :=
  ((l.dropWhile pyIsSpace).reverse.dropWhile pyIsSpace).reverse

/-- Search step of `re.compile(r"\x60\x60\x60(.*?)\x60\x60\x60", re.DOTALL).search`:
from the current position, find the earliest closing fence; returns the
characters before it and the characters after it.  The lazy `(.*?)` always
takes the earliest possible closing fence. -/
def findClose : List Char → Option (List Char × List Char)
  | [] => none
  | c :: rest =>
    match dropLit ticks (c :: rest) with
    | some after => some ([], after)
    | none =>
      match findClose rest with
      | some (mid, after) => some (c :: mid, after)
      | none => none

/-- `re.search` for the fenced-block pattern: try each start position from
the left; at a position starting with a fence, the match succeeds iff a
closing fence follows, and `group(1)` is the (lazy) text between the
fences.  A fence with no closing fence is not a match and the scan moves
one character forward, exactly as the regex engine does. -/
def findFence : List Char → Option (List Char)
  | [] => none
  | c :: rest =>
    match dropLit ticks (c :: rest) with
    | some after =>
      match findClose after with
      | some (mid, _) => some mid
      | none => findFence rest
    | none => findFence rest

/-- Head-match of `re.sub(r"\x60\x60\x60[a-zA-Z]*\n", "", _)`'s pattern: a fence,
a greedy run of ASCII letters, then a newline.  Greedy letters followed by a
literal newline admit no backtracking (a shorter letter run is followed by a
letter, never a newline), so a `takeWhile` is exact. -/
def matchTagFence (l : List Char) : Option (List Char) :=
  match dropLit ticks l with
  | none => none
  | some rest =>
    match rest.dropWhile Char.isAlpha with
    | c :: after => if c = '\n' then some after else none
    | [] => none

/-- Left-to-right non-overlapping deletion of tag-fence matches
(`re.sub` replaces by the empty string and resumes after each match).
Fuel is the input length; every match consumes at least four characters,
so the fuel never runs out when initialised to the length. -/
def sub1Aux : Nat → List Char → List Char
  | 0, l => l
  | _, [] => []
  | fuel + 1, c :: rest =>
    match matchTagFence (c :: rest) with
    | some after => sub1Aux fuel after
    | none => c :: sub1Aux fuel rest

/-- Source line 139: `re.sub(r"\x60\x60\x60[a-zA-Z]*\n", "", matchtext)`. -/
def sub1 (l : List Char) : List Char := sub1Aux l.length l

/-- Match of `\s*$` under `re.MULTILINE` at the current position: greedy
whitespace, then an end-of-line anchor (end of string, or just before a
newline).  The greedy run backtracks to the longest stop position at which
the anchor holds; a stop before a non-whitespace character never satisfies
the anchor because a newline is itself whitespace.  Returns the remainder
after the consumed whitespace (the anchor is zero-width). -/
def matchWsToEol : List Char → Option (List Char)
  | [] => some []
  | c :: rest =>
    if pyIsSpace c then
      match matchWsToEol rest with
      | some r => some r
      | none => if c = '\n' then some (c :: rest) else none
    else none

/-- Head-match of `re.sub(r"\x60\x60\x60\s*$", "", _, flags=re.MULTILINE)`'s
pattern: a fence, then `\s*$`. -/
def matchCloseFence (l : List Char) : Option (List Char) :=
  match dropLit ticks l with
  | none => none
  | some rest => matchWsToEol rest

/-- Left-to-right non-overlapping deletion of close-fence matches.  Every
match consumes at least the three fence characters, so length fuel is
sufficient. -/
def sub2Aux : Nat → List Char → List Char
  | 0, l => l
  | _, [] => []
  | fuel + 1, c :: rest =>
    match matchCloseFence (c :: rest) with
    | some after => sub2Aux fuel after
    | none => c :: sub2Aux fuel rest

/-- Source line 140: `re.sub(r"\x60\x60\x60\s*$", "", cleaned_text, flags=re.MULTILINE)`. -/
def sub2 (l : List Char) : List Char := sub2Aux l.length l

/-- Source lines 124-143, `CoqInterface.extract_code_segment`: search for
the first fenced region; on a match, strip the captured text, apply the two
cleanup substitutions, and strip again; otherwise return the empty
string. -/
def extract_code_segment (text : List Char) : List Char :=
  match findFence text with
  | some mid => pyStrip (sub2 (sub1 (pyStrip mid)))
  | none => []

/-! ### The Coq error pattern (source lines 44-62, `parse_coq_error`) -/

/-- Literal head of the error pattern: `File "`. -/
def fileLit : List Char := "File \"".data

/-- Literal between the file name and the line number: `", line `. -/
def lineLit : List Char := "\", line ".data

/-- Literal between the line number and the character range: `, characters `. -/
def charsLit : List Char := ", characters ".data

/-- Literal between the character range and the message: `:` newline `Error: `. -/
def errLit : List Char := ":\nError: ".data

/-- Character class `[^"]`. -/
def pNotQuote (c : Char) : Bool := !(c = '\"')

/-- Character class complement used for the final `.*` group (no DOTALL on
this pattern, so `.` stops at a newline). -/
def pNotNl (c : Char) : Bool := !(c = '\n')

/-- Anchored match of the pattern
`File "[^"]*", line (?P<line>\d+), characters (?P<characters>\d+-\d+):\nError: (?P<message>.*)`
at the current position.  Each greedy piece (`[^"]*` before a literal `"`,
`\d+` before a non-digit literal, trailing `.*`) is followed by a character
it cannot itself match, so greedy `takeWhile` runs are exact and the match
is deterministic.  Returns the three named groups. -/
def matchCoqErrorAt (l : List Char) : Option (List Char × List Char × List Char) :=
  (dropLit fileLit l).bind fun r1 =>
  (dropLit lineLit (r1.dropWhile pNotQuote)).bind fun r3 =>
  if r3.takeWhile Char.isDigit = [] then none else
  (dropLit charsLit (r3.dropWhile Char.isDigit)).bind fun r5 =>
  if r5.takeWhile Char.isDigit = [] then none else
  (dropLit ['-'] (r5.dropWhile Char.isDigit)).bind fun r6 =>
  if r6.takeWhile Char.isDigit = [] then none else
  (dropLit errLit (r6.dropWhile Char.isDigit)).map fun r9 =>
    (r3.takeWhile Char.isDigit,
     r5.takeWhile Char.isDigit ++ '-' :: r6.takeWhile Char.isDigit,
     r9.takeWhile pNotNl)

/-- `re.search` for the error pattern: leftmost position at which the
anchored match succeeds. -/
def searchCoqError : List Char → Option (List Char × List Char × List Char)
  | [] => none
  | c :: rest =>
    match matchCoqErrorAt (c :: rest) with
    | some r => some r
    | none => searchCoqError rest

/-- Source lines 44-62, `CoqInterface.parse_coq_error`: `match.groupdict()`
on a match (a mapping with exactly the keys `line`, `characters`,
`message`, in group order) and the empty mapping on no match. -/
def parse_coq_error (error_message : List Char) : List (String × List Char) :=
  match searchCoqError error_message with
  | some (l, c, m) =>
    [("line", l), ("characters", c), ("message", m)]
  | none => []

/-! ### Error rendering and prompt construction (source lines 19-37) -/

/-- The fixed message returned by `compile_and_check` when extraction
yields the empty string (source line 113). -/
def noCodeMsg : List Char := "No code segment found in response.".data

/-- Source lines 30-37, `CoqInterface.construct_error_message`, on a string
argument: parse the diagnostic and render
`We had an error on line {line} at characters {characters}. The error type was "{message}"`.
The three subscript accesses raise an uncaught `KeyError` when the parse
produced the empty mapping; that abort is modelled as `none`.  (In the
driver the argument is always `None` or a string, and the `None` case is
filtered out by truthiness before this function is reached, so the
non-string branch of the source is unreachable.) -/
def construct_error_message (errors : List Char) : Option (List Char) :=
  let d := parse_coq_error errors
  match d.lookup "line", d.lookup "characters", d.lookup "message" with
  | some l, some c, some m =>
    some ("We had an error on line ".data ++ l ++ " at characters ".data ++ c
      ++ ". The error type was \"".data ++ m ++ "\"".data)
  | _, _, _ => none

/-- Python truthiness of the `errors` value threaded by the driver: `None`
and the empty string are falsy, a nonempty string is truthy. -/
def truthy : Option (List Char) → Bool
  | none => false
  | some [] => false
  | some (_ :: _) => true

/-- Source lines 19-28, `CoqInterface.construct_ollama_prompt`.  `none`
models the uncaught `KeyError` escaping from `construct_error_message`. -/
def construct_ollama_prompt (mp task : List Char) (first : Bool)
    (errors : Option (List Char)) : Option (List Char) :=
  if first then
    if truthy errors then
      match construct_error_message (errors.getD []) with
      | some cem => some (mp ++ nlc ++ task ++ nlc ++ cem ++ nlc)
      | none => none
    else some (mp ++ nlc ++ task ++ nlc)
  else
    if truthy errors then
      match construct_error_message (errors.getD []) with
      | some cem => some ("Reminder that our task is to: ".data ++ task ++ nlc ++ cem ++ nlc)
      | none => none
    else some (task ++ nlc)

/-! ### Filesystem, checker subprocess and the attempt (source lines 78-122) -/

/-- The two files the program touches: the target Coq source file
(`self.filename`) and the fixed-name error log (`coq_error.log`).
`none` means the file does not exist. -/
structure FS where
  target : Option (List Char)
  errorLog : Option (List Char)
deriving DecidableEq

/-- Outcome of one `coqc` subprocess invocation: zero exit, or non-zero
exit with the captured standard-error text.  The checker is an external
collaborator, supplied as an oracle. -/
inductive CheckerResult
  | ok
  | err (stderr : List Char)
deriving DecidableEq

/-- Source lines 78-80, `CoqInterface.write_to_file`: overwrite the target
file. -/
def write_to_file (code : List Char) (fs : FS) : FS :=
  { fs with target := some code }

/-- Source lines 82-95, `CoqInterface.run_coqc`: on success return
`(True, "Coq code compiled successfully.")`; on a non-zero exit write the
captured stderr to the error log (mode `"w"`, overwriting) and return
`(False, stderr)`. -/
def run_coqc (checker : CheckerResult) (fs : FS) : FS × Bool × List Char :=
  match checker with
  | .ok => (fs, true, "Coq code compiled successfully.".data)
  | .err stderr => ({ fs with errorLog := some stderr }, false, stderr)

/-- Source lines 97-106, `CoqInterface.parse_errors`: return the error-log
contents, or the placeholder when the log does not exist. -/
def parse_errors (fs : FS) : List Char :=
  match fs.errorLog with
  | none => "No errors found.".data
  | some e => e

/-- Result of one `compile_and_check` call: the filesystem afterwards, the
returned `(status, message)` pair (`message = none` models Python `None`),
and whether the checker subprocess was invoked. -/
structure AttemptResult where
  fs : FS
  status : Bool
  message : Option (List Char)
  checkerInvoked : Bool
deriving DecidableEq

/-- Source lines 108-122, `CoqInterface.compile_and_check`.  The model
response is an oracle argument (the real code obtains it from the ollama
backend using the constructed prompt); prompt construction happens first,
inside `generate_coq_code`, so a `KeyError` there (`none`) aborts the
attempt before extraction, file write or checker call. -/
def compile_and_check (mp task response : List Char) (checker : CheckerResult)
    (first : Bool) (errors : Option (List Char)) (fs : FS) : Option AttemptResult :=
  match construct_ollama_prompt mp task first errors with
  | none => none
  | some _prompt =>
    let clean := extract_code_segment response
    if clean = [] then
      some ⟨fs, false, some noCodeMsg, false⟩
    else
      let fs1 := write_to_file clean fs
      let res := run_coqc checker fs1
      if res.2.1 then
        some ⟨res.1, true, none, true⟩
      else
        some ⟨res.1, false, some (parse_errors res.1), true⟩

/-! ### The driving loop (source lines 176-183) -/

/-- Observable outcome of one run of `main`'s loop: the filesystem, how
many loop bodies were entered (a body aborted by an uncaught exception
counts as entered), how many checker subprocesses were spawned, the final
`status`, and whether the run was aborted by an uncaught exception. -/
structure RunResult where
  fs : FS
  rounds : Nat
  checkerCalls : Nat
  status : Bool
  crashed : Bool
deriving DecidableEq

/-- The loop body of `main`, by remaining iterations: round `i` calls
`compile_and_check(first=(i == 0), errors=errors)`, breaks on success,
and otherwise carries the returned message into the next round. -/
def runAux (mp task : List Char) (resp : Nat → List Char) (chk : Nat → CheckerResult) :
    Nat → Nat → Option (List Char) → FS → Nat → RunResult
  | i, 0, _errors, fs, calls => ⟨fs, i, calls, false, false⟩
  | i, fuel + 1, errors, fs, calls =>
    match compile_and_check mp task (resp i) (chk i) (i == 0) errors fs with
    | none => ⟨fs, i + 1, calls, false, true⟩
    | some r =>
      let calls1 := calls + (if r.checkerInvoked then 1 else 0)
      if r.status then ⟨r.fs, i + 1, calls1, true, false⟩
      else runAux mp task resp chk (i + 1) fuel r.message r.fs calls1

/-- Source lines 176-183: `status = False; errors = None;
for i in range(M): status, errors = compile_and_check(first=i==0, errors=errors);
if status: break`. -/
def runLoop (M : Nat) (mp task : List Char) (resp : Nat → List Char)
    (chk : Nat → CheckerResult) (fs : FS) : RunResult :=
  runAux mp task resp chk 0 M none fs 0

/-! ### Basic lemmas about the string helpers -/

/-- The backtick character. -/
def tk : Char := Char.ofNat 96

theorem ticks_cons : ticks = tk :: tk :: tk :: [] := rfl

theorem dropLit_iff (p : List Char) : ∀ (l r : List Char), dropLit p l = some r ↔ l = p ++ r := by
  induction p with
  | nil => intro l r; simp [dropLit]
  | cons a ps ih =>
    intro l r
    cases l with
    | nil => simp [dropLit]
    | cons c cs =>
      simp only [dropLit]
      by_cases hc : c = a
      · subst hc; simp [ih]
      · simp [hc]

theorem dropLit_self (p r : List Char) : dropLit p (p ++ r) = some r :=
  (dropLit_iff p (p ++ r) r).mpr rfl

theorem takeWhile_all {p : Char → Bool} : ∀ {l : List Char},
    (∀ c ∈ l, p c = true) → l.takeWhile p = l := by
  intro l
  induction l with
  | nil => intro _; rfl
  | cons c cs ih =>
    intro h
    rw [List.takeWhile_cons_of_pos (h c (by simp)), ih (fun x hx => h x (by simp [hx]))]

theorem dropWhile_all {p : Char → Bool} : ∀ {l : List Char},
    (∀ c ∈ l, p c = true) → l.dropWhile p = [] := by
  intro l
  induction l with
  | nil => intro _; rfl
  | cons c cs ih =>
    intro h
    rw [List.dropWhile_cons_of_pos (h c (by simp))]
    exact ih (fun x hx => h x (by simp [hx]))

theorem takeWhile_append_cons {p : Char → Bool} :
    ∀ (l₁ : List Char) (c : Char) (l₂ : List Char),
    (∀ x ∈ l₁, p x = true) → p c = false →
    (l₁ ++ c :: l₂).takeWhile p = l₁ := by
  intro l₁
  induction l₁ with
  | nil => intro c l₂ _ hc; simpa using List.takeWhile_cons_of_neg (l := l₂) (by simp [hc])
  | cons a as ih =>
    intro c l₂ h1 hc
    rw [List.cons_append, List.takeWhile_cons_of_pos (h1 a (by simp)),
      ih c l₂ (fun x hx => h1 x (by simp [hx])) hc]

theorem dropWhile_append_cons {p : Char → Bool} :
    ∀ (l₁ : List Char) (c : Char) (l₂ : List Char),
    (∀ x ∈ l₁, p x = true) → p c = false →
    (l₁ ++ c :: l₂).dropWhile p = c :: l₂ := by
  intro l₁
  induction l₁ with
  | nil => intro c l₂ _ hc; simpa using List.dropWhile_cons_of_neg (l := l₂) (by simp [hc])
  | cons a as ih =>
    intro c l₂ h1 hc
    rw [List.cons_append, List.dropWhile_cons_of_pos (h1 a (by simp))]
    exact ih c l₂ (fun x hx => h1 x (by simp [hx])) hc

theorem pyStrip_eq_nil {l : List Char} (h : ∀ c ∈ l, pyIsSpace c = true) :
    pyStrip l = [] := by
  unfold pyStrip
  rw [dropWhile_all h]
  rfl


/-! ### Correctness of the fenced-block search -/

/-- A text contains a triple-backtick fenced region: an opening fence with
a closing fence somewhere after it. -/
def HasFence (t : List Char) : Prop :=
  ∃ a b c : List Char, t = a ++ (ticks ++ (b ++ (ticks ++ c)))

theorem findClose_some_eq : ∀ {l mid after : List Char},
    findClose l = some (mid, after) → l = mid ++ ticks ++ after := by
  intro l
  induction l with
  | nil => intro mid after h; simp [findClose] at h
  | cons c rest ih =>
    intro mid after h
    cases hd : dropLit ticks (c :: rest) with
    | some a =>
      simp only [findClose, hd] at h
      obtain ⟨h1, h2⟩ := Prod.mk.injEq .. ▸ Option.some.inj h
      subst h1; subst h2
      simpa using (dropLit_iff ticks (c :: rest) a).mp hd
    | none =>
      cases hc : findClose rest with
      | some p =>
        obtain ⟨m, aft⟩ := p
        simp only [findClose, hd, hc] at h
        obtain ⟨h1, h2⟩ := Prod.mk.injEq .. ▸ Option.some.inj h
        subst h1; subst h2
        have := ih hc
        simp [this]
      | none => simp [findClose, hd, hc] at h

theorem findClose_none_eq : ∀ {l : List Char}, findClose l = none →
    ∀ a b : List Char, l ≠ a ++ ticks ++ b := by
  intro l
  induction l with
  | nil =>
    intro _ a b heq
    have hlen := congrArg List.length heq
    simp [ticks_cons] at hlen
    omega
  | cons c rest ih =>
    intro h a b heq
    cases hd : dropLit ticks (c :: rest) with
    | some aft => simp [findClose, hd] at h
    | none =>
      cases hc : findClose rest with
      | some p => simp [findClose, hd, hc] at h
      | none =>
        cases a with
        | nil =>
          simp only [List.nil_append] at heq
          rw [heq, dropLit_self] at hd
          exact absurd hd (by simp)
        | cons x xs =>
          simp only [List.cons_append] at heq
          exact ih hc xs b (List.cons.inj heq).2

theorem findFence_some_hasFence : ∀ {t mid : List Char},
    findFence t = some mid → HasFence t := by
  intro t
  induction t with
  | nil => intro mid h; simp [findFence] at h
  | cons c rest ih =>
    intro mid h
    cases hd : dropLit ticks (c :: rest) with
    | some a =>
      cases hc : findClose a with
      | some p =>
        obtain ⟨m, aft⟩ := p
        have h1 : c :: rest = ticks ++ a := (dropLit_iff ticks (c :: rest) a).mp hd
        have h2 : a = m ++ ticks ++ aft := findClose_some_eq hc
        exact ⟨[], m, aft, by simp [h1, h2]⟩
      | none =>
        simp only [findFence, hd, hc] at h
        obtain ⟨x, y, z, hxyz⟩ := ih h
        exact ⟨c :: x, y, z, by simp [hxyz]⟩
    | none =>
      simp only [findFence, hd] at h
      obtain ⟨x, y, z, hxyz⟩ := ih h
      exact ⟨c :: x, y, z, by simp [hxyz]⟩

theorem findFence_none_not_hasFence : ∀ {t : List Char},
    findFence t = none → ¬ HasFence t := by
  intro t
  induction t with
  | nil =>
    intro _ hf
    obtain ⟨a, b, c, habc⟩ := hf
    have hlen := congrArg List.length habc
    simp [ticks_cons] at hlen
    omega
  | cons c rest ih =>
    intro h hf
    obtain ⟨a, b, cc, habc⟩ := hf
    cases hd : dropLit ticks (c :: rest) with
    | some aft =>
      cases hc : findClose aft with
      | some p => obtain ⟨m, aft2⟩ := p; simp [findFence, hd, hc] at h
      | none =>
        cases a with
        | nil =>
          simp only [List.nil_append] at habc
          rw [habc, dropLit_self] at hd
          have haft : aft = b ++ ticks ++ cc := by
            have := Option.some.inj hd
            simp [this]
          exact findClose_none_eq hc b cc haft
        | cons x xs =>
          simp only [findFence, hd, hc] at h
          simp only [List.cons_append] at habc
          exact ih h ⟨xs, b, cc, (List.cons.inj habc).2⟩
    | none =>
      cases a with
      | nil =>
        simp only [List.nil_append] at habc
        rw [habc, dropLit_self] at hd
        exact absurd hd (by simp)
      | cons x xs =>
        simp only [findFence, hd] at h
        simp only [List.cons_append] at habc
        exact ih h ⟨xs, b, cc, (List.cons.inj habc).2⟩

/-! ### Correctness of the error-pattern search -/

/-- A legal file-name group: no double quote (the `[^"]*` class). -/
def goodName (name : List Char) : Prop := ∀ c ∈ name, c ≠ '\"'

/-- A legal `\d+` group: a nonempty run of ASCII digits. -/
def goodNum (n : List Char) : Prop := n ≠ [] ∧ ∀ c ∈ n, c.isDigit

/-- One occurrence of the diagnostic shape
`File "<name>", line <N>, characters <A>-<B>:` newline `Error: <rest of text>`. -/
def errShapeCore (name N A B rest : List Char) : List Char :=
  fileLit ++ (name ++ (lineLit ++ (N ++ (charsLit ++ (A ++ ('-' :: (B ++ (errLit ++ rest))))))))

/-- The diagnostic contains a substring of the shape the error pattern
describes. -/
def HasErrShape (s : List Char) : Prop :=
  ∃ pre name N A B rest, s = pre ++ errShapeCore name N A B rest ∧
    goodName name ∧ goodNum N ∧ goodNum A ∧ goodNum B

theorem lineLit_cons : lineLit = '\"' :: ", line ".data := rfl

theorem charsLit_cons : charsLit = ',' :: " characters ".data := rfl

theorem errLit_cons : errLit = ':' :: "\nError: ".data := rfl

theorem matchCoqErrorAt_concat (name N A B rest : List Char)
    (hname : goodName name) (hN : goodNum N) (hA : goodNum A) (hB : goodNum B) :
    matchCoqErrorAt (errShapeCore name N A B rest) =
      some (N, A ++ '-' :: B, rest.takeWhile pNotNl) := by
  obtain ⟨hN1, hN2⟩ := hN
  obtain ⟨hA1, hA2⟩ := hA
  obtain ⟨hB1, hB2⟩ := hB
  have hq : ∀ x ∈ name, pNotQuote x = true := fun x hx => by
    simp [pNotQuote, hname x hx]
  have e2 : (name ++ (lineLit ++ (N ++ (charsLit ++ (A ++ ('-' :: (B ++ (errLit ++ rest)))))))).dropWhile pNotQuote
      = lineLit ++ (N ++ (charsLit ++ (A ++ ('-' :: (B ++ (errLit ++ rest)))))) := by
    rw [lineLit_cons, List.cons_append]
    exact dropWhile_append_cons name _ _ hq (by decide)
  have e4 : (N ++ (charsLit ++ (A ++ ('-' :: (B ++ (errLit ++ rest)))))).takeWhile Char.isDigit = N := by
    rw [charsLit_cons, List.cons_append]
    exact takeWhile_append_cons N _ _ hN2 (by decide)
  have e5 : (N ++ (charsLit ++ (A ++ ('-' :: (B ++ (errLit ++ rest)))))).dropWhile Char.isDigit
      = charsLit ++ (A ++ ('-' :: (B ++ (errLit ++ rest)))) := by
    rw [charsLit_cons, List.cons_append]
    exact dropWhile_append_cons N _ _ hN2 (by decide)
  have e7 : (A ++ ('-' :: (B ++ (errLit ++ rest)))).takeWhile Char.isDigit = A :=
    takeWhile_append_cons A _ _ hA2 (by decide)
  have e8 : (A ++ ('-' :: (B ++ (errLit ++ rest)))).dropWhile Char.isDigit
      = ['-'] ++ (B ++ (errLit ++ rest)) :=
    dropWhile_append_cons A _ _ hA2 (by decide)
  have e10 : (B ++ (errLit ++ rest)).takeWhile Char.isDigit = B := by
    rw [errLit_cons, List.cons_append]
    exact takeWhile_append_cons B _ _ hB2 (by decide)
  have e11 : (B ++ (errLit ++ rest)).dropWhile Char.isDigit = errLit ++ rest := by
    rw [errLit_cons, List.cons_append]
    exact dropWhile_append_cons B _ _ hB2 (by decide)
  unfold matchCoqErrorAt errShapeCore
  rw [dropLit_self]
  simp only [Option.some_bind]
  rw [e2, dropLit_self]
  simp only [Option.some_bind]
  rw [e4, if_neg hN1, e5, dropLit_self]
  simp only [Option.some_bind]
  rw [e7, if_neg hA1, e8, dropLit_self]
  simp only [Option.some_bind]
  rw [e10, if_neg hB1, e11, dropLit_self]
  simp only [Option.map_some']

theorem mem_takeWhile_true {p : Char → Bool} {l : List Char} {x : Char}
    (h : x ∈ l.takeWhile p) : p x = true := by
  induction l with
  | nil => simp [List.takeWhile] at h
  | cons c cs ih =>
    by_cases hp : p c
    · rw [List.takeWhile_cons_of_pos hp] at h
      rcases List.mem_cons.mp h with h1 | h2
      · subst h1; exact hp
      · exact ih h2
    · rw [List.takeWhile_cons_of_neg hp] at h
      simp at h

theorem matchCoqErrorAt_some_shape {l : List Char} {r : List Char × List Char × List Char}
    (h : matchCoqErrorAt l = some r) :
    ∃ name N A B rest, l = errShapeCore name N A B rest ∧
      goodName name ∧ goodNum N ∧ goodNum A ∧ goodNum B := by
  simp only [matchCoqErrorAt, Option.bind_eq_some] at h
  obtain ⟨r1, h1, h⟩ := h
  obtain ⟨r3, h2, h⟩ := h
  by_cases hN : r3.takeWhile Char.isDigit = []
  · rw [if_pos hN] at h; simp at h
  · rw [if_neg hN] at h
    simp only [Option.bind_eq_some] at h
    obtain ⟨r5, h3, h⟩ := h
    by_cases hA : r5.takeWhile Char.isDigit = []
    · rw [if_pos hA] at h; simp at h
    · rw [if_neg hA] at h
      simp only [Option.bind_eq_some] at h
      obtain ⟨r6, h4, h⟩ := h
      by_cases hB : r6.takeWhile Char.isDigit = []
      · rw [if_pos hB] at h; simp at h
      · rw [if_neg hB] at h
        simp only [Option.map_eq_some'] at h
        obtain ⟨r9, h5, _⟩ := h
        have H1 : l = fileLit ++ r1 := (dropLit_iff _ _ _).mp h1
        have hr1 : r1 = r1.takeWhile pNotQuote ++ (lineLit ++ r3) := by
          conv_lhs => rw [← List.takeWhile_append_dropWhile pNotQuote r1]
          rw [(dropLit_iff _ _ _).mp h2]
        have hr3 : r3 = r3.takeWhile Char.isDigit ++ (charsLit ++ r5) := by
          conv_lhs => rw [← List.takeWhile_append_dropWhile Char.isDigit r3]
          rw [(dropLit_iff _ _ _).mp h3]
        have hr5 : r5 = r5.takeWhile Char.isDigit ++ (['-'] ++ r6) := by
          conv_lhs => rw [← List.takeWhile_append_dropWhile Char.isDigit r5]
          rw [(dropLit_iff _ _ _).mp h4]
        have hr6 : r6 = r6.takeWhile Char.isDigit ++ (errLit ++ r9) := by
          conv_lhs => rw [← List.takeWhile_append_dropWhile Char.isDigit r6]
          rw [(dropLit_iff _ _ _).mp h5]
        refine ⟨r1.takeWhile pNotQuote, r3.takeWhile Char.isDigit, r5.takeWhile Char.isDigit,
          r6.takeWhile Char.isDigit, r9, ?_, ?_, ⟨hN, fun c hc => mem_takeWhile_true hc⟩,
          ⟨hA, fun c hc => mem_takeWhile_true hc⟩, ⟨hB, fun c hc => mem_takeWhile_true hc⟩⟩
        · conv_lhs => rw [H1, hr1, hr3, hr5, hr6]
          simp [errShapeCore, List.append_assoc]
        · intro c hc
          have := mem_takeWhile_true hc
          simp [pNotQuote] at this
          exact this

theorem searchCoqError_eq_of_matchAt {l : List Char} {r : List Char × List Char × List Char}
    (h : matchCoqErrorAt l = some r) : searchCoqError l = some r := by
  cases l with
  | nil => exact absurd h (by simp [matchCoqErrorAt, dropLit, fileLit])
  | cons c rest => simp [searchCoqError, h]

theorem searchCoqError_suffix {tail : List Char} {r : List Char × List Char × List Char}
    (h : matchCoqErrorAt tail = some r) :
    ∀ pre : List Char, searchCoqError (pre ++ tail) ≠ none := by
  intro pre
  induction pre with
  | nil => simp [searchCoqError_eq_of_matchAt h]
  | cons c pre ih =>
    rw [List.cons_append]
    cases hm : matchCoqErrorAt (c :: (pre ++ tail)) with
    | some r2 => simp [searchCoqError, hm]
    | none =>
      simp only [searchCoqError, hm]
      exact ih

theorem searchCoqError_some_shape : ∀ {s : List Char} {r : List Char × List Char × List Char},
    searchCoqError s = some r → HasErrShape s := by
  intro s
  induction s with
  | nil => intro r h; simp [searchCoqError] at h
  | cons c rest ih =>
    intro r h
    cases hm : matchCoqErrorAt (c :: rest) with
    | some r2 =>
      obtain ⟨name, N, A, B, rst, hcore, hn, hgN, hgA, hgB⟩ := matchCoqErrorAt_some_shape hm
      exact ⟨[], name, N, A, B, rst, by simp [hcore], hn, hgN, hgA, hgB⟩
    | none =>
      simp only [searchCoqError, hm] at h
      obtain ⟨pre, name, N, A, B, rst, hcore, hn, hgN, hgA, hgB⟩ := ih h
      exact ⟨c :: pre, name, N, A, B, rst, by simp [hcore], hn, hgN, hgA, hgB⟩

theorem hasErrShape_search_ne_none {s : List Char} (h : HasErrShape s) :
    searchCoqError s ≠ none := by
  obtain ⟨pre, name, N, A, B, rest, hs, hn, hN, hA, hB⟩ := h
  subst hs
  exact searchCoqError_suffix (matchCoqErrorAt_concat name N A B rest hn hN hA hB) pre

theorem parse_coq_error_eq_nil_iff (s : List Char) :
    parse_coq_error s = [] ↔ searchCoqError s = none := by
  unfold parse_coq_error
  cases h : searchCoqError s with
  | none => simp
  | some r => obtain ⟨a, b, m⟩ := r; simp

/-! ### Rendering, prompt and attempt lemmas -/

theorem cem_ne_none {d : List Char} (h : parse_coq_error d ≠ []) :
    construct_error_message d ≠ none := by
  cases hs : searchCoqError d with
  | none => exact absurd ((parse_coq_error_eq_nil_iff d).mpr hs) h
  | some r =>
    obtain ⟨a, b, m⟩ := r
    have hp : parse_coq_error d = [("line", a), ("characters", b), ("message", m)] := by
      unfold parse_coq_error
      rw [hs]
    simp [construct_error_message, hp, List.lookup]

/-- A diagnostic that the next round's prompt construction survives: empty
(falsy, so never rendered) or parsable (so rendering succeeds). -/
def feedbackSafe (d : List Char) : Prop := d = [] ∨ parse_coq_error d ≠ []

/-- The carried-forward error value is survivable by prompt construction. -/
def errorsSafe : Option (List Char) → Prop
  | none => True
  | some d => feedbackSafe d

theorem prompt_ok (mp task : List Char) (first : Bool) {errors : Option (List Char)}
    (h : errorsSafe errors) : ∃ p, construct_ollama_prompt mp task first errors = some p := by
  cases errors with
  | none => cases first <;> simp [construct_ollama_prompt, truthy]
  | some d =>
    cases d with
    | nil => cases first <;> simp [construct_ollama_prompt, truthy]
    | cons c cs =>
      have hd : feedbackSafe (c :: cs) := h
      rcases hd with h1 | h2
      · simp at h1
      · cases hm : construct_error_message (c :: cs) with
        | none => exact absurd hm (cem_ne_none h2)
        | some m => cases first <;> simp [construct_ollama_prompt, truthy, hm]

theorem cc_noCode {response : List Char} (hx : extract_code_segment response = [])
    (mp task : List Char) (checker : CheckerResult) (first : Bool)
    (errors : Option (List Char)) (hp : errorsSafe errors) (fs : FS) :
    compile_and_check mp task response checker first errors fs =
      some ⟨fs, false, some noCodeMsg, false⟩ := by
  obtain ⟨p, hp2⟩ := prompt_ok mp task first hp
  simp [compile_and_check, hp2, hx]

theorem cc_fail {response : List Char} (hx : extract_code_segment response ≠ [])
    (mp task d : List Char) (first : Bool)
    (errors : Option (List Char)) (hp : errorsSafe errors) (fs : FS) :
    compile_and_check mp task response (CheckerResult.err d) first errors fs =
      some ⟨⟨some (extract_code_segment response), some d⟩, false, some d, true⟩ := by
  obtain ⟨p, hp2⟩ := prompt_ok mp task first hp
  simp [compile_and_check, hp2, hx, write_to_file, run_coqc, parse_errors]

theorem cc_ok {response : List Char} (hx : extract_code_segment response ≠ [])
    (mp task : List Char) (first : Bool)
    (errors : Option (List Char)) (hp : errorsSafe errors) (fs : FS) :
    compile_and_check mp task response CheckerResult.ok first errors fs =
      some ⟨⟨some (extract_code_segment response), fs.errorLog⟩, true, none, true⟩ := by
  obtain ⟨p, hp2⟩ := prompt_ok mp task first hp
  simp [compile_and_check, hp2, hx, write_to_file, run_coqc]

/-! ### Loop lemmas -/

/-- Round `i` extracts code but the checker rejects it, with a diagnostic
the next round survives. -/
def roundFails (resp : Nat → List Char) (chk : Nat → CheckerResult) (i : Nat) : Prop :=
  extract_code_segment (resp i) ≠ [] ∧
    ∃ d, chk i = CheckerResult.err d ∧ feedbackSafe d

/-- Round `i` extracts code and the checker accepts it. -/
def roundSucceeds (resp : Nat → List Char) (chk : Nat → CheckerResult) (i : Nat) : Prop :=
  extract_code_segment (resp i) ≠ [] ∧ chk i = CheckerResult.ok

theorem runAux_rounds_le (mp task : List Char) (resp : Nat → List Char)
    (chk : Nat → CheckerResult) : ∀ (n i : Nat) (errors : Option (List Char)) (fs : FS)
    (calls : Nat), (runAux mp task resp chk i n errors fs calls).rounds ≤ i + n := by
  intro n
  induction n with
  | zero => intro i e fs c; simp [runAux]
  | succ n ih =>
    intro i e fs c
    cases hm : compile_and_check mp task (resp i) (chk i) (i == 0) e fs with
    | none => simp [runAux, hm]
    | some r =>
      by_cases hs : r.status
      · simp [runAux, hm, hs]
      · simp only [runAux, hm]
        rw [if_neg hs]
        have := ih (i + 1) r.message r.fs (c + if r.checkerInvoked then 1 else 0)
        omega

theorem runAux_fail_steps (mp task : List Char) (resp : Nat → List Char)
    (chk : Nat → CheckerResult) :
    ∀ (k i m : Nat) (errors : Option (List Char)) (fs : FS) (calls : Nat),
    (∀ j, j < k → roundFails resp chk (i + j)) → errorsSafe errors →
    ∃ errors2 fs2, errorsSafe errors2 ∧
      runAux mp task resp chk i (k + m) errors fs calls =
        runAux mp task resp chk (i + k) m errors2 fs2 (calls + k) := by
  intro k
  induction k with
  | zero => intro i m e fs c _ he; exact ⟨e, fs, he, by simp⟩
  | succ k ih =>
    intro i m e fs c hf he
    have h0 := hf 0 (by omega)
    rw [Nat.add_zero] at h0
    obtain ⟨hx, d, hd, hsafe⟩ := h0
    have hcc := cc_fail hx mp task d (i == 0) e he fs
    have hfuel : k + 1 + m = (k + m) + 1 := by omega
    have step : runAux mp task resp chk i ((k + m) + 1) e fs c =
        runAux mp task resp chk (i + 1) (k + m) (some d)
          ⟨some (extract_code_segment (resp i)), some d⟩ (c + 1) := by
      rw [runAux, hd, hcc]
      simp
    obtain ⟨e2, fs2, he2, hrest⟩ := ih (i + 1) m (some d)
      ⟨some (extract_code_segment (resp i)), some d⟩ (c + 1)
      (fun j hj => by
        have := hf (j + 1) (by omega)
        have harith : i + (j + 1) = i + 1 + j := by omega
        rwa [harith] at this)
      hsafe
    refine ⟨e2, fs2, he2, ?_⟩
    rw [hfuel, step, hrest]
    have h1 : i + 1 + k = i + (k + 1) := by omega
    have h2 : c + 1 + k = c + (k + 1) := by omega
    rw [h1, h2]

theorem sub1_nil : sub1 [] = [] := rfl

theorem sub2_nil : sub2 [] = [] := rfl

theorem pyStrip_nil : pyStrip [] = [] := rfl

/-- A compile diagnostic that matches the error pattern, used by scenario
witnesses. -/
def goodDiag : List Char := "File \"a\", line 1, characters 0-1:\nError: e".data

/-! ### Claims -/

/-- C2 (code_bug): the specification requires that rendering an unparsable
diagnostic must not crash, but `construct_error_message` subscripts the
empty mapping (`errordict['line']`), raising an uncaught KeyError —
modelled here as the rendering returning `none` instead of some string. -/
theorem C2_theorem : construct_error_message "unstructured nonsense".data = none := by decide

/-- C3 (code_bug): for the response containing a fenced block with the
language tag `coq`, extraction keeps the language-tag line: the capture
group of the fence pattern cannot contain backticks, so the cleanup
substitution for a tag line can never match inside it.  The extracted code
is `coq\nLemma t: 1=1. Proof. reflexivity. Qed.`, not the claimed
`Lemma t: 1=1. Proof. reflexivity. Qed.`. -/
theorem C3_theorem :
    extract_code_segment "\x60\x60\x60coq\nLemma t: 1=1. Proof. reflexivity. Qed.\n\x60\x60\x60".data
      = "coq\nLemma t: 1=1. Proof. reflexivity. Qed.".data ∧
    "coq\nLemma t: 1=1. Proof. reflexivity. Qed.".data
      ≠ "Lemma t: 1=1. Proof. reflexivity. Qed.".data := by decide

/-- C5 (confirmed): on a diagnostic of the documented shape the parser
returns exactly the mapping
`line ↦ N, characters ↦ A-B, message ↦ msg`, and on any string containing
no substring of that shape it returns the empty mapping. -/
theorem C5_theorem :
    (∀ name N A B msg : List Char, goodName name → goodNum N → goodNum A → goodNum B →
      (∀ c ∈ msg, c ≠ '\n') →
      parse_coq_error (errShapeCore name N A B msg) =
        [("line", N), ("characters", A ++ '-' :: B), ("message", msg)]) ∧
    (∀ s : List Char, ¬ HasErrShape s → parse_coq_error s = []) := by
  constructor
  · intro name N A B msg hn hN hA hB hm
    have h1 := matchCoqErrorAt_concat name N A B msg hn hN hA hB
    have h2 : msg.takeWhile pNotNl = msg :=
      takeWhile_all (fun c hc => by simp [pNotNl, hm c hc])
    rw [h2] at h1
    unfold parse_coq_error
    rw [searchCoqError_eq_of_matchAt h1]
  · intro s h
    cases hs : searchCoqError s with
    | none => exact (parse_coq_error_eq_nil_iff s).mpr hs
    | some r => exact absurd (searchCoqError_some_shape hs) h

/-- Witness for C5: the specification example diagnostic parses to the
documented mapping, and the shapeless string `hello` parses to the empty
mapping. -/
theorem C5_witness :
    parse_coq_error (errShapeCore "x.v".data "12".data "4".data "10".data "Syntax error.".data)
      = [("line", "12".data), ("characters", "4".data ++ '-' :: "10".data),
         ("message", "Syntax error.".data)] ∧
    errShapeCore "x.v".data "12".data "4".data "10".data "Syntax error.".data
      = "File \"x.v\", line 12, characters 4-10:\nError: Syntax error.".data ∧
    parse_coq_error "hello".data = [] := by
  refine ⟨?_, by decide, ?_⟩
  · exact C5_theorem.1 "x.v".data "12".data "4".data "10".data "Syntax error.".data
      (by unfold goodName; decide) (by unfold goodNum; decide) (by unfold goodNum; decide)
      (by unfold goodNum; decide) (by decide)
  · exact C5_theorem.2 "hello".data
      (fun h => hasErrShape_search_ne_none h (by decide))

/-- C6 (corrected): the first-attempt, no-error prompt is not the bare
concatenation `preamble ++ task`: the f-string inserts a newline between
the two parts and appends a trailing newline. -/
theorem C6_counterexample :
    construct_ollama_prompt "A".data "B".data true none = some "A\nB\n".data ∧
    construct_ollama_prompt "A".data "B".data true none ≠ some ("A".data ++ "B".data) := by
  decide

/-- C6 (corrected, amended): for every preamble and task description, the
first-attempt no-error prompt equals the preamble, a newline, the task
description, and a trailing newline. -/
theorem C6_theorem (mp task : List Char) :
    construct_ollama_prompt mp task true none = some (mp ++ nlc ++ task ++ nlc) := rfl

/-- C7 (confirmed): when the checker exits non-zero, the captured
standard-error text overwrites the error log (whatever it held before),
the attempt reports failure, and the very same text is returned as the
failure message (read back from the log by `parse_errors`). -/
theorem C7_theorem (mp task response stderr : List Char) (first : Bool) (fs : FS)
    (hx : extract_code_segment response ≠ []) :
    compile_and_check mp task response (CheckerResult.err stderr) first none fs =
      some ⟨⟨some (extract_code_segment response), some stderr⟩, false, some stderr, true⟩ :=
  cc_fail hx mp task stderr first none trivial fs

/-- Witness for C7 at a concrete failing attempt: the stale log contents
are overwritten by the new stderr text. -/
theorem C7_witness :
    compile_and_check "P".data "T".data "\x60\x60\x60x\x60\x60\x60".data
      (CheckerResult.err "boom".data) true none ⟨none, some "stale".data⟩ =
      some ⟨⟨some (extract_code_segment "\x60\x60\x60x\x60\x60\x60".data), some "boom".data⟩,
        false, some "boom".data, true⟩ :=
  C7_theorem "P".data "T".data "\x60\x60\x60x\x60\x60\x60".data "boom".data true
    ⟨none, some "stale".data⟩ (by decide)

/-- C8 (confirmed): for every text with no triple-backtick fenced region,
extraction returns the empty string, and `compile_and_check` treats that
empty string as extraction failure — it reports failure with the fixed
message, touches no file, and invokes no checker. -/
theorem C8_theorem (t : List Char) (h : ¬ HasFence t) :
    extract_code_segment t = [] ∧
    ∀ (mp task : List Char) (chk : CheckerResult) (first : Bool) (fs : FS),
      compile_and_check mp task t chk first none fs =
        some ⟨fs, false, some noCodeMsg, false⟩ := by
  have hff : findFence t = none := by
    cases hf : findFence t with
    | none => rfl
    | some m => exact absurd (findFence_some_hasFence hf) h
  have hx : extract_code_segment t = [] := by simp [extract_code_segment, hff]
  exact ⟨hx, fun mp task chk first fs => cc_noCode hx mp task chk first none trivial fs⟩

/-- Witness for C8 at a concrete fence-free response. -/
theorem C8_witness :
    extract_code_segment "hello there".data = [] ∧
    compile_and_check "P".data "T".data "hello there".data CheckerResult.ok true none
      ⟨none, none⟩ = some ⟨⟨none, none⟩, false, some noCodeMsg, false⟩ := by
  have h := C8_theorem "hello there".data
    (fun hf => absurd (by decide : findFence "hello there".data = none)
      (fun hn => absurd (findFence_none_not_hasFence hn) (fun hc => hc hf)))
  exact ⟨h.1, h.2 "P".data "T".data CheckerResult.ok true ⟨none, none⟩⟩

/-- C9 (confirmed): when an attempt's extraction yields the empty string,
`compile_and_check` returns before `write_to_file`, so the filesystem —
in particular the target file — is exactly what it was before the attempt,
and the checker was not invoked. -/
theorem C9_theorem (mp task response : List Char) (checker : CheckerResult) (first : Bool)
    (errors : Option (List Char)) (fs : FS) (r : AttemptResult)
    (hx : extract_code_segment response = [])
    (hr : compile_and_check mp task response checker first errors fs = some r) :
    r.fs = fs ∧ r.checkerInvoked = false ∧ r.status = false := by
  cases hp : construct_ollama_prompt mp task first errors with
  | none => simp [compile_and_check, hp] at hr
  | some p =>
    simp [compile_and_check, hp, hx] at hr
    subst hr
    exact ⟨rfl, rfl, rfl⟩

/-- Witness for C9: an attempt with a fence-free response leaves the
previously written target file intact. -/
theorem C9_witness :
    (⟨⟨some "old".data, none⟩, false, some noCodeMsg, false⟩ : AttemptResult).fs
      = ⟨some "old".data, none⟩ ∧
    (⟨⟨some "old".data, none⟩, false, some noCodeMsg, false⟩ : AttemptResult).checkerInvoked
      = false ∧
    (⟨⟨some "old".data, none⟩, false, some noCodeMsg, false⟩ : AttemptResult).status = false :=
  C9_theorem "P".data "T".data "plain words".data CheckerResult.ok true none
    ⟨some "old".data, none⟩ ⟨⟨some "old".data, none⟩, false, some noCodeMsg, false⟩
    (by decide) (by decide)

/-- C10 (confirmed): when the first fenced region of a response holds only
whitespace, extraction strips it to the empty string — the same value
returned when no fence exists at all — and the attempt is handled as an
extraction failure. -/
theorem C10_theorem (t mid : List Char) (hf : findFence t = some mid)
    (hws : ∀ c ∈ mid, pyIsSpace c = true) :
    extract_code_segment t = [] ∧
    ∀ (mp task : List Char) (chk : CheckerResult) (first : Bool) (fs : FS),
      compile_and_check mp task t chk first none fs =
        some ⟨fs, false, some noCodeMsg, false⟩ := by
  have hx : extract_code_segment t = [] := by
    simp [extract_code_segment, hf, pyStrip_eq_nil hws, sub1_nil, sub2_nil, pyStrip_nil]
  exact ⟨hx, fun mp task chk first fs => cc_noCode hx mp task chk first none trivial fs⟩

/-- Witness for C10: a response whose fenced block holds only whitespace
is treated like a missing fence. -/
theorem C10_witness :
    extract_code_segment "\x60\x60\x60\n   \n\x60\x60\x60".data = [] ∧
    compile_and_check "P".data "T".data "\x60\x60\x60\n   \n\x60\x60\x60".data
      CheckerResult.ok true none ⟨none, none⟩ =
      some ⟨⟨none, none⟩, false, some noCodeMsg, false⟩ := by
  have h := C10_theorem "\x60\x60\x60\n   \n\x60\x60\x60".data "\n   \n".data
    (by decide) (by decide)
  exact ⟨h.1, h.2 "P".data "T".data CheckerResult.ok true ⟨none, none⟩⟩

/-- C1 (corrected): on an extraction failure in round 1 the run does NOT
stop immediately — with the real bound of two attempts, a second loop body
is entered (`rounds = 2`) and the run ends by an uncaught exception
(`crashed = true`) instead of ending after round 1, refuting the claim
that no further attempt is started. -/
theorem C1_counterexample :
    (runLoop MAX_NUM_ATTEMPTS "P".data "prove 1=1".data (fun _ => "no fenced block here".data)
      (fun _ => CheckerResult.ok) ⟨none, none⟩).rounds = 2 ∧
    (runLoop MAX_NUM_ATTEMPTS "P".data "prove 1=1".data (fun _ => "no fenced block here".data)
      (fun _ => CheckerResult.ok) ⟨none, none⟩).crashed = true ∧
    (runLoop MAX_NUM_ATTEMPTS "P".data "prove 1=1".data (fun _ => "no fenced block here".data)
      (fun _ => CheckerResult.ok) ⟨none, none⟩).checkerCalls = 0 := by
  decide

/-- C1 (corrected, amended): when round 1 extracts no code, that round
invokes no checker and fails with the fixed message; with at least two
attempts configured the loop then starts a second attempt, feeds the fixed
message into that attempt's error rendering — which fails on the
unparsable message (uncaught KeyError) — and the run aborts with two
loop bodies entered, zero checker calls, the filesystem untouched, and no
success. -/
theorem C1_theorem (mp task : List Char) (resp : Nat → List Char) (chk : Nat → CheckerResult)
    (fs : FS) (M : Nat) (hM : 2 ≤ M) (hx : extract_code_segment (resp 0) = []) :
    runLoop M mp task resp chk fs = ⟨fs, 2, 0, false, true⟩ := by
  obtain ⟨k, hk⟩ := Nat.exists_eq_add_of_le hM
  subst hk
  have step0 : compile_and_check mp task (resp 0) (chk 0) true none fs =
      some ⟨fs, false, some noCodeMsg, false⟩ :=
    cc_noCode hx mp task (chk 0) true none trivial fs
  have cemnc : construct_error_message noCodeMsg = none := by decide
  have ht : truthy (some noCodeMsg) = true := rfl
  have step1p : construct_ollama_prompt mp task false (some noCodeMsg) = none := by
    simp [construct_ollama_prompt, ht, cemnc]
  have step1 : compile_and_check mp task (resp 1) (chk 1) false (some noCodeMsg) fs = none := by
    simp [compile_and_check, step1p]
  show runAux mp task resp chk 0 (2 + k) none fs 0 = _
  have h2k : 2 + k = (k + 1) + 1 := by omega
  rw [h2k]
  simp [runAux, step0, step1]

/-- Witness for C1 with the source's own attempt bound. -/
theorem C1_witness :
    runLoop MAX_NUM_ATTEMPTS "meta".data "task".data (fun _ => "plain text".data)
      (fun _ => CheckerResult.ok) ⟨some "keep".data, none⟩ =
      ⟨⟨some "keep".data, none⟩, 2, 0, false, true⟩ :=
  C1_theorem "meta".data "task".data (fun _ => "plain text".data) (fun _ => CheckerResult.ok)
    ⟨some "keep".data, none⟩ MAX_NUM_ATTEMPTS (by decide) (by decide)

/-- C4 (corrected): with one compile failure whose diagnostic does not
match the error pattern followed by a round that would succeed, the claim
predicts two rounds ending in success; the code instead aborts round 2
during prompt construction (KeyError), ending without success. -/
theorem C4_counterexample :
    (runLoop 2 "P".data "T".data (fun _ => "\x60\x60\x60x\x60\x60\x60".data)
      (fun i => if i == 0 then CheckerResult.err "boom".data else CheckerResult.ok)
      ⟨none, none⟩).status = false ∧
    (runLoop 2 "P".data "T".data (fun _ => "\x60\x60\x60x\x60\x60\x60".data)
      (fun i => if i == 0 then CheckerResult.err "boom".data else CheckerResult.ok)
      ⟨none, none⟩).crashed = true := by
  decide

/-- C4 (corrected, amended): provided each failed round's diagnostic is
empty or matches the error pattern (so the next prompt's rendering
succeeds), the loop performs exactly K+1 rounds and ends in success when
the first K rounds fail and round K+1 succeeds with K+1 ≤ M; it performs
exactly M rounds and ends in failure (without crashing) when all M rounds
fail; and the number of rounds never exceeds M in any run. -/
theorem C4_theorem :
    (∀ (mp task : List Char) (resp : Nat → List Char) (chk : Nat → CheckerResult) (fs : FS)
      (M K : Nat), (∀ i, i < K → roundFails resp chk i) → roundSucceeds resp chk K → K < M →
      ∃ fs2, runLoop M mp task resp chk fs = ⟨fs2, K + 1, K + 1, true, false⟩ ∧
        fs2.target = some (extract_code_segment (resp K))) ∧
    (∀ (mp task : List Char) (resp : Nat → List Char) (chk : Nat → CheckerResult) (fs : FS)
      (M : Nat), (∀ i, i < M → roundFails resp chk i) →
      ∃ fs2, runLoop M mp task resp chk fs = ⟨fs2, M, M, false, false⟩) ∧
    (∀ (mp task : List Char) (resp : Nat → List Char) (chk : Nat → CheckerResult) (fs : FS)
      (M : Nat), (runLoop M mp task resp chk fs).rounds ≤ M) := by
  refine ⟨?_, ?_, ?_⟩
  · intro mp task resp chk fs M K hf hs hKM
    obtain ⟨hx, hok⟩ := hs
    obtain ⟨e2, fs2, he2, heq⟩ := runAux_fail_steps mp task resp chk K 0 (M - K) none fs 0
      (fun j hj => by simpa using hf j hj) trivial
    have hM : K + (M - K) = M := by omega
    refine ⟨⟨some (extract_code_segment (resp K)), fs2.errorLog⟩, ?_, rfl⟩
    unfold runLoop
    rw [← hM]
    rw [heq]
    have hm1 : M - K = (M - K - 1) + 1 := by omega
    rw [hm1]
    simp only [Nat.zero_add]
    simp only [runAux]
    rw [hok, cc_ok hx mp task (K == 0) e2 he2 fs2]
    simp
  · intro mp task resp chk fs M hf
    obtain ⟨e2, fs2, he2, heq⟩ := runAux_fail_steps mp task resp chk M 0 0 none fs 0
      (fun j hj => by simpa using hf j hj) trivial
    refine ⟨fs2, ?_⟩
    unfold runLoop
    calc runAux mp task resp chk 0 M none fs 0
        = runAux mp task resp chk (0 + M) 0 e2 fs2 (0 + M) := heq
      _ = ⟨fs2, M, M, false, false⟩ := by simp [runAux]
  · intro mp task resp chk fs M
    simpa [runLoop] using runAux_rounds_le mp task resp chk M 0 none fs 0

/-- Witness for C4: one parsable failure then success gives two rounds and
success; three parsable failures with bound three give three rounds and
failure; the bound holds on a concrete run. -/
theorem C4_witness :
    ((runLoop 2 "P".data "T".data (fun _ => "\x60\x60\x60x\x60\x60\x60".data)
        (fun i => if i == 0 then CheckerResult.err goodDiag else CheckerResult.ok)
        ⟨none, none⟩).rounds = 2 ∧
      (runLoop 2 "P".data "T".data (fun _ => "\x60\x60\x60x\x60\x60\x60".data)
        (fun i => if i == 0 then CheckerResult.err goodDiag else CheckerResult.ok)
        ⟨none, none⟩).status = true) ∧
    ((runLoop 3 "P".data "T".data (fun _ => "\x60\x60\x60x\x60\x60\x60".data)
        (fun _ => CheckerResult.err goodDiag) ⟨none, none⟩).rounds = 3 ∧
      (runLoop 3 "P".data "T".data (fun _ => "\x60\x60\x60x\x60\x60\x60".data)
        (fun _ => CheckerResult.err goodDiag) ⟨none, none⟩).status = false) ∧
    (runLoop 5 "P".data "T".data (fun _ => "\x60\x60\x60x\x60\x60\x60".data)
      (fun _ => CheckerResult.err goodDiag) ⟨none, none⟩).rounds ≤ 5 := by
  have hfail0 : ∀ i, i < 1 →
      roundFails (fun _ => "\x60\x60\x60x\x60\x60\x60".data)
        (fun i => if i == 0 then CheckerResult.err goodDiag else CheckerResult.ok) i := by
    intro i hi
    have hi0 : i = 0 := by omega
    subst hi0
    exact ⟨by decide, goodDiag, by decide, Or.inr (by decide)⟩
  have hsucc : roundSucceeds (fun _ => "\x60\x60\x60x\x60\x60\x60".data)
      (fun i => if i == 0 then CheckerResult.err goodDiag else CheckerResult.ok) 1 :=
    ⟨by decide, by decide⟩
  have hfailAll : ∀ i, i < 3 →
      roundFails (fun _ => "\x60\x60\x60x\x60\x60\x60".data)
        (fun _ => CheckerResult.err goodDiag) i := by
    intro i _
    refine ⟨?_, goodDiag, rfl, Or.inr (by decide)⟩
    show extract_code_segment "\x60\x60\x60x\x60\x60\x60".data ≠ []
    decide
  obtain ⟨fs2, heq, _⟩ := C4_theorem.1 "P".data "T".data
    (fun _ => "\x60\x60\x60x\x60\x60\x60".data)
    (fun i => if i == 0 then CheckerResult.err goodDiag else CheckerResult.ok)
    ⟨none, none⟩ 2 1 hfail0 hsucc (by omega)
  obtain ⟨fs3, heq3⟩ := C4_theorem.2.1 "P".data "T".data
    (fun _ => "\x60\x60\x60x\x60\x60\x60".data)
    (fun _ => CheckerResult.err goodDiag) ⟨none, none⟩ 3 hfailAll
  refine ⟨⟨?_, ?_⟩, ⟨?_, ?_⟩, ?_⟩
  · rw [heq]
  · rw [heq]
  · rw [heq3]
  · rw [heq3]
  · exact C4_theorem.2.2 "P".data "T".data (fun _ => "\x60\x60\x60x\x60\x60\x60".data)
      (fun _ => CheckerResult.err goodDiag) ⟨none, none⟩ 5

end LlmCoq
